import Mathlib

/-!
Verification of the wl-scanner Wayland protocol code generator
(src/scanner.go).  The generator reads a protocol description (interfaces
with requests, events and enums) and emits Go source text: a constants
block, a request-code block and an interface-definitions block.  This file
is a shallow embedding of the generator: the XML data model becomes Lean
structures, the global `wlNames` map becomes an explicit `String → String`
state (a Go map lookup of an absent key yields the zero value `""`, which
the embedding reproduces with a total function defaulting to `""`), the
`bytes.Buffer` writes become string concatenation, and the loops become
folds.  Character-level functions (`strings.Title`, `unicode.ToTitle`,
`strings.isSeparator`) are modelled on the ASCII range, which is the range
protocol names use: for ASCII, Go treats alphanumerics and underscore as
non-separators and `unicode.ToTitle` coincides with upper-casing.
-/

namespace WlScanner

/-- Model of Go `strings.isSeparator` on the ASCII range: ASCII
alphanumerics and the underscore are not separators, every other character
is. -/
def isSepChar (c : Char) : Bool :=
  !(c.isDigit || c.isLower || c.isUpper || c == '_')

/-- Model of the character walk of Go `strings.Title`: a character is
title-cased exactly when the preceding character (initially a space) is a
separator.  On ASCII, `unicode.ToTitle` is `Char.toUpper`. -/
def goTitleAux : Char → List Char → List Char
  | _, [] => []
  | prev, c :: cs => (if isSepChar prev then c.toUpper else c) :: goTitleAux c cs

/-- Does the character list begin with the three characters `w`, `l`, `_`
(Go `strings.HasPrefix(wlName, "wl_")`)? -/
def startsWl (l : List Char) : Bool :=
  decide (l.take 3 = ['w', 'l', '_'])

/-- Go `strings.TrimPrefix` guarded by the `wl_` test (scanner.go 227-229). -/
def stripWl (l : List Char) : List Char :=
  if startsWl l then l.drop 3 else l

/-- Go `strings.Replace(wlName, "_", " ", -1)` (scanner.go 232). -/
def replaceUS (l : List Char) : List Char :=
  l.map fun c => if c = '_' then ' ' else c

/-- Go `strings.Replace(wlName, " ", "", -1)` (scanner.go 238). -/
def removeSpaces (l : List Char) : List Char :=
  l.filter fun c => c != ' '

/-- The `CamelCase` pipeline of scanner.go 226-241 on character lists:
strip an optional `wl_` marker, turn underscores into spaces, title-case,
remove the spaces. -/
def camelList (l : List Char) : List Char :=
  removeSpaces (goTitleAux ' ' (replaceUS (stripWl l)))

/-- `CamelCase` (scanner.go 226-241). -/
def CamelCase (s : String) : String :=
  ⟨camelList s.data⟩

/-- The identifier registry `wlNames`: a Go `map[string]string`, modelled
as a total function whose value on unregistered keys is the Go zero value
`""` (the generator never uses the two-result lookup form on `wlNames`). -/
abbrev Names := String → String

/-- `registerAndCase` (scanner.go 218-223): case the native name, record
the mapping, return the cased name. -/
def registerAndCase (m : Names) (wlName : String) : Names × String :=
  (fun k => if k = wlName then CamelCase wlName else m k, CamelCase wlName)

/-- XML `arg` element (scanner.go 47-55).  `typ` is the Go field `Type`,
`iface` the Go field `Interface`. -/
structure Arg where
  name : String
  typ : String
  iface : String
  enumAttr : String := ""
  allowNull : Bool := false
  summary : String := ""
deriving DecidableEq

/-- XML `event` element (scanner.go 57-63); the generator reads only the
name and the args. -/
structure Event where
  name : String
  args : List Arg
deriving DecidableEq

/-- XML `request` element (scanner.go 38-45); the generator reads only the
name and the args. -/
structure Request where
  name : String
  typ : String := ""
  args : List Arg
deriving DecidableEq

/-- XML `entry` element (scanner.go 73-78). -/
structure Entry where
  name : String
  value : String
  summary : String := ""
deriving DecidableEq

/-- XML `enum` element (scanner.go 65-71). -/
structure Enum where
  name : String
  bitfield : Bool := false
  entries : List Entry
deriving DecidableEq

/-- XML `interface` element (scanner.go 27-36). -/
structure Interface where
  name : String
  version : Nat := 0
  requests : List Request
  events : List Event
  enums : List Enum
deriving DecidableEq

/-- XML `protocol` root element (scanner.go 14-19). -/
structure Protocol where
  name : String := ""
  copyright : String := ""
  interfaces : List Interface
deriving DecidableEq

/-- The `wlTypes` table (scanner.go 82-89) with the presence bit of the Go
two-result map lookup. -/
def wlTypes : String → Option String := fun t =>
  if t = "int" then some "int32"
  else if t = "uint" then some "uint32"
  else if t = "string" then some "string"
  else if t = "fd" then some "uintptr"
  else if t = "fixed" then some "float32"
  else if t = "array" then some "[]int32"
  else none

/-- One-result Go map lookup on `wlTypes`: the zero value `""` when the
key is absent. -/
def wlTypesD (t : String) : String :=
  (wlTypes t).getD ""

/-- Loop body of `requestArgs` (scanner.go 249-265): how one argument
extends the accumulated parameter list. -/
def requestArgsStep (m : Names) (args : List String) (arg : Arg) : List String :=
  if arg.typ = "new_id" then
    if arg.iface = "" then
      args ++ ["iface string", "version uint32", arg.name ++ " Proxy"]
    else
      args
  else if arg.typ = "object" ∧ arg.iface ≠ "" then
    args ++ [arg.name ++ " *" ++ m arg.iface]
  else
    args ++ [arg.name ++ " " ++ wlTypesD arg.typ]

/-- The parameter list accumulated by `requestArgs` (scanner.go 243-265). -/
def requestArgsList (m : Names) (req : Request) : List String :=
  req.args.foldl (requestArgsStep m) []

/-- `requestArgs` (scanner.go 243-275): the comma-joined parameter text. -/
def requestArgs (m : Names) (req : Request) : String :=
  String.intercalate "," (requestArgsList m req)

/-- The return list accumulated by `requestRets` (scanner.go 283-291):
one pointer per known-interface new-id argument, then `" error"`. -/
def requestRetsList (m : Names) (req : Request) : List String :=
  req.args.foldl
    (fun rets arg =>
      if arg.typ = "new_id" ∧ arg.iface ≠ "" then rets ++ ["*" ++ m arg.iface] else rets)
    [] ++ [" error"]

/-- `requestRets` (scanner.go 277-309): comma-joined, parenthesised when
there is more than one return value. -/
def requestRets (m : Names) (req : Request) : String :=
  let rets := requestRetsList m req
  if rets.length > 1 then "(" ++ String.intercalate "," rets ++ ")"
  else String.intercalate "," rets

/-- Loop body of `requestBody` (scanner.go 319-334), acting on the
accumulator (construction lines, dispatch parameters, `hasRetType`). -/
def requestBodyStep (m : Names) (acc : List String × List String × String) (arg : Arg) :
    List String × List String × String :=
  if arg.typ = "new_id" then
    if arg.iface ≠ "" then
      (acc.1 ++ ["ret := New" ++ m arg.iface ++ "(p.Connection())\n"],
       acc.2.1 ++ ["Proxy(ret)"], "ret,")
    else
      (acc.1, acc.2.1 ++ ["iface", "version", arg.name], acc.2.2)
  else
    (acc.1, acc.2.1 ++ [arg.name], acc.2.2)

/-- The (construction lines, dispatch parameters, `hasRetType`) triple
built by the loop of `requestBody` (scanner.go 311-334). -/
def requestBodyParts (m : Names) (req : Request) : List String × List String × String :=
  req.args.foldl (requestBodyStep m) ([], [], "")

/-- `requestBody` (scanner.go 311-343): construction lines, then the
single `return ... SendRequest(...)` statement. -/
def requestBody (m : Names) (req : Request) (reqCodeN : String) : String :=
  let parts := requestBodyParts m req
  String.join parts.1 ++ "return " ++ parts.2.2 ++ " p.Connection().SendRequest(p," ++
    reqCodeN ++ String.join (parts.2.1.map (fun q => "," ++ q)) ++ ")"

/-- Field type of one event-struct field (scanner.go 137-146): the basic
table when the kind is present, else a pointer to the registered interface
type for object/new-id with a named interface, else `Proxy`. -/
def eventFieldType (m : Names) (a : Arg) : String :=
  match wlTypes a.typ with
  | some t => t
  | none =>
    if (a.typ = "object" ∨ a.typ = "new_id") ∧ a.iface ≠ "" then "*" ++ m a.iface
    else "Proxy"

/-- One event struct type (scanner.go 133-150). -/
def eventStructText (m : Names) (ifaceName eventName : String) (e : Event) : String :=
  "\ntype " ++ ifaceName ++ eventName ++ "Event struct \x7b\n" ++
    String.join (e.args.map (fun a => CamelCase a.name ++ " " ++ eventFieldType m a ++ "\n")) ++
    "\x7d\n"

/-- Loop body over the events of one interface (scanner.go 132-151):
register the event name, append its struct text, remember the cased name. -/
def emitEventsStep (ifaceName : String) (acc : Names × String × List String) (e : Event) :
    Names × String × List String :=
  let r := registerAndCase acc.1 e.name
  (r.1, acc.2.1 ++ eventStructText r.1 ifaceName r.2 e, acc.2.2 ++ [r.2])

/-- Event pass of one interface: final registry, concatenated event struct
texts, and the list `eventNames` of cased event names. -/
def emitEvents (m : Names) (ifaceName : String) (events : List Event) :
    Names × String × List String :=
  events.foldl (emitEventsStep ifaceName) (m, "", [])

/-- One channel field line of the interface struct (scanner.go 159). -/
def chanFieldLine (ifaceName evName : String) : String :=
  evName ++ "Chan chan " ++ ifaceName ++ evName ++ "Event\n"

/-- The interface struct type (scanner.go 156-161): the `BaseProxy`
embedding plus one channel field per event. -/
def ifaceStructText (ifaceName : String) (eventNames : List String) : String :=
  "\ntype " ++ ifaceName ++ " struct \x7b\nBaseProxy\n" ++
    String.join (eventNames.map (chanFieldLine ifaceName)) ++ "\x7d\n"

/-- One channel initialisation line of the constructor (scanner.go 167). -/
def ctorInitLine (ifaceName evName : String) : String :=
  "ret." ++ evName ++ "Chan = make(chan " ++ ifaceName ++ evName ++ "Event)\n"

/-- The interface constructor (scanner.go 164-171): allocate, initialise
every event channel, register with the connection, return. -/
def ifaceCtorText (ifaceName : String) (eventNames : List String) : String :=
  "\nfunc New" ++ ifaceName ++ "(conn *Connection) *" ++ ifaceName ++ " \x7b\n" ++
    "ret := new(" ++ ifaceName ++ ")\n" ++
    String.join (eventNames.map (ctorInitLine ifaceName)) ++
    "conn.Register(ret)\nreturn ret\n\x7d\n"

/-- Go `strings.ToTitle` on ASCII: every character upper-cased. -/
def allTitle (s : String) : String :=
  ⟨s.data.map Char.toUpper⟩

/-- The request-code constant name (scanner.go 177). -/
def reqCodeName (ifaceName reqName : String) : String :=
  allTitle ("_" ++ ifaceName ++ "_" ++ reqName)

/-- The (constant name, dispatch code) pairs the request loop emits for
one interface: the code of a request is its zero-based loop index. -/
def reqCodePairs (ifaceName : String) (reqs : List Request) : List (String × Nat) :=
  reqs.enum.map (fun p => (reqCodeName ifaceName (CamelCase p.2.name), p.1))

/-- One line of the request-code block (scanner.go 178). -/
def reqCodeLine (q : String × Nat) : String :=
  q.1 ++ " = " ++ Nat.repr q.2 ++ "\n"

/-- One generated request method (scanner.go 180-193). -/
def methodText (m : Names) (ifaceName : String) (req : Request) (codeN : String) : String :=
  "\nfunc (p *" ++ ifaceName ++ ") " ++ CamelCase req.name ++ "(" ++ requestArgs m req ++ ")" ++
    requestRets m req ++ "\x7b\n" ++ requestBody m req codeN ++ "\n\x7d\n"

/-- The request loop of one interface (scanner.go 175-194): accumulates
the request-code lines and the method texts in document order. -/
def emitRequestsFold (m : Names) (ifaceName : String) (reqs : List Request) : String × String :=
  reqs.enum.foldl
    (fun acc p =>
      let codeN := reqCodeName ifaceName (CamelCase p.2.name)
      (acc.1 ++ reqCodeLine (codeN, p.1), acc.2 ++ methodText m ifaceName p.2 codeN))
    ("", "")

/-- One enum block (scanner.go 197-208): register the enum and entry names
and emit the typed constant group, values passed through verbatim. -/
def emitEnum (acc : Names × String) (ifaceName : String) (en : Enum) : Names × String :=
  let r := registerAndCase acc.1 en.name
  let constTypeName := ifaceName ++ r.2
  let ef := en.entries.foldl
    (fun (a : Names × String) entry =>
      let re := registerAndCase a.1 entry.name
      (re.1, a.2 ++ constTypeName ++ re.2 ++ " " ++ constTypeName ++ " = " ++ entry.value ++ "\n"))
    (r.1, "")
  (ef.1, acc.2 ++ "\ntype " ++ constTypeName ++ " uint\nconst (\n" ++ ef.2 ++ ")\n")

/-- The mutable generation state of `main`: the `wlNames` registry and the
three output buffers. -/
structure GenState where
  names : Names
  constB : String
  reqB : String
  ifaceB : String

/-- Pass-2 body for one interface (scanner.go 126-209): events, interface
struct, constructor, request methods with their code constants, enums. -/
def emitInterface (st : GenState) (iface : Interface) : GenState :=
  let ifaceName := st.names iface.name
  let ev := emitEvents st.names ifaceName iface.events
  let reqs := emitRequestsFold ev.1 ifaceName iface.requests
  let ens := iface.enums.foldl (fun a en => emitEnum a ifaceName en) (ev.1, "")
  { names := ens.1
    constB := st.constB ++ ens.2
    reqB := st.reqB ++ reqs.1
    ifaceB := st.ifaceB ++ ev.2.1 ++ ifaceStructText ifaceName ev.2.2 ++
      ifaceCtorText ifaceName ev.2.2 ++ reqs.2 }

/-- Pass 1 of `main` (scanner.go 119-122): register every interface name,
starting from the empty registry. -/
def pass1 (p : Protocol) : Names :=
  p.interfaces.foldl (fun m i => (registerAndCase m i.name).1) (fun _ => "")

/-- The whole generator (`main`, scanner.go 97-215) as a function from the
parsed protocol to the emitted text: constants block, then request-code
block, then interface-definitions block. -/
def generate (p : Protocol) : String :=
  let st := p.interfaces.foldl emitInterface
    { names := pass1 p
      constB := "package wl"
      reqB := "\n//Interface Request Codes\n\nconst (\n"
      ifaceB := "" }
  st.constB ++ st.reqB ++ ")" ++ st.ifaceB

/-! ### Character-level facts about the ASCII model -/

theorem charEq_of_toNat {a b : Char} (h : a.toNat = b.toNat) : a = b :=
  Char.ext (UInt32.ext h)

theorem uint32_le_iff {a b : UInt32} : a ≤ b ↔ a.toNat ≤ b.toNat :=
  Iff.rfl

theorem toNat_toUpper (c : Char) :
    (Char.toUpper c).toNat =
      if c.toNat ≥ 97 ∧ c.toNat ≤ 122 then c.toNat - 32 else c.toNat := by
  show (if c.toNat ≥ 97 ∧ c.toNat ≤ 122 then Char.ofNat (c.toNat - 32) else c).toNat = _
  split
  · next h =>
    have hv : Nat.isValidChar (c.toNat - 32) := Or.inl (by omega)
    rw [Char.ofNat, dif_pos hv]
    rfl
  · rfl

theorem isDigit_iff {c : Char} : c.isDigit = true ↔ 48 ≤ c.toNat ∧ c.toNat ≤ 57 := by
  simp [Char.isDigit, Bool.and_eq_true, decide_eq_true_eq, ge_iff_le, uint32_le_iff,
    Char.toNat, UInt32.size]

theorem isLower_iff {c : Char} : c.isLower = true ↔ 97 ≤ c.toNat ∧ c.toNat ≤ 122 := by
  simp [Char.isLower, Bool.and_eq_true, decide_eq_true_eq, ge_iff_le, uint32_le_iff,
    Char.toNat, UInt32.size]

theorem isUpper_iff {c : Char} : c.isUpper = true ↔ 65 ≤ c.toNat ∧ c.toNat ≤ 90 := by
  simp [Char.isUpper, Bool.and_eq_true, decide_eq_true_eq, ge_iff_le, uint32_le_iff,
    Char.toNat, UInt32.size]

theorem eq_us_iff {c : Char} : c = '_' ↔ c.toNat = 95 :=
  ⟨fun h => h ▸ rfl, fun h => charEq_of_toNat h⟩

theorem isSepChar_eq_false_iff {c : Char} :
    isSepChar c = false ↔
      (48 ≤ c.toNat ∧ c.toNat ≤ 57) ∨ (97 ≤ c.toNat ∧ c.toNat ≤ 122) ∨
      (65 ≤ c.toNat ∧ c.toNat ≤ 90) ∨ c.toNat = 95 := by
  unfold isSepChar
  rw [Bool.not_eq_false']
  simp only [Bool.or_eq_true, beq_iff_eq, isDigit_iff, isLower_iff, isUpper_iff, eq_us_iff]
  tauto

theorem isSepChar_eq_true_iff {c : Char} :
    isSepChar c = true ↔
      ¬((48 ≤ c.toNat ∧ c.toNat ≤ 57) ∨ (97 ≤ c.toNat ∧ c.toNat ≤ 122) ∨
        (65 ≤ c.toNat ∧ c.toNat ≤ 90) ∨ c.toNat = 95) := by
  rw [← isSepChar_eq_false_iff]
  cases h : isSepChar c <;> simp

theorem isSepChar_toUpper (c : Char) : isSepChar (Char.toUpper c) = isSepChar c := by
  rcases h : isSepChar c with _ | _
  · rw [Bool.eq_false_iff, ne_eq, Bool.not_eq_true, isSepChar_eq_false_iff]
    rw [isSepChar_eq_false_iff] at h
    rw [toNat_toUpper]
    split <;> omega
  · rw [isSepChar_eq_true_iff]
    rw [isSepChar_eq_true_iff] at h
    rw [toNat_toUpper]
    split <;> omega

theorem toUpper_toUpper (c : Char) : c.toUpper.toUpper = c.toUpper := by
  apply charEq_of_toNat
  have h := toNat_toUpper c
  have h2 := toNat_toUpper c.toUpper
  by_cases hc : c.toNat ≥ 97 ∧ c.toNat ≤ 122
  · rw [if_pos hc] at h
    rw [h] at h2
    rw [if_neg (by omega)] at h2
    omega
  · rw [if_neg hc] at h
    rw [h] at h2
    rw [if_neg hc] at h2
    omega

theorem toUpper_eq_iff_of_ne_lower {c : Char} (m : Nat) (hm : ¬ (97 ≤ m ∧ m ≤ 122))
    (hm65 : ¬ (65 ≤ m ∧ m ≤ 90)) : (Char.toUpper c).toNat = m ↔ c.toNat = m := by
  rw [toNat_toUpper]
  split <;> omega

/-! ### Idempotence of the naming rule (claim C8) -/

theorem char_eq_iff_toNat {c d : Char} : c = d ↔ c.toNat = d.toNat :=
  ⟨fun h => h ▸ rfl, charEq_of_toNat⟩

theorem toUpper_eq_space_iff {c : Char} : Char.toUpper c = ' ' ↔ c = ' ' := by
  rw [@char_eq_iff_toNat (Char.toUpper c) ' ', @char_eq_iff_toNat c ' ']
  exact toUpper_eq_iff_of_ne_lower 32 (by omega) (by omega)

theorem toUpper_eq_us_iff {c : Char} : Char.toUpper c = '_' ↔ c = '_' := by
  rw [@char_eq_iff_toNat (Char.toUpper c) '_', @char_eq_iff_toNat c '_']
  exact toUpper_eq_iff_of_ne_lower 95 (by omega) (by omega)

theorem us_not_mem_replaceUS (l : List Char) : '_' ∉ replaceUS l := by
  intro h
  rcases List.mem_map.1 h with ⟨c, _, hc⟩
  by_cases h' : c = '_' <;> simp [h'] at hc

theorem us_not_mem_goTitleAux (p : Char) (l : List Char) (h : '_' ∉ l) :
    '_' ∉ goTitleAux p l := by
  induction l generalizing p with
  | nil => simp [goTitleAux]
  | cons c cs ih =>
    simp only [goTitleAux, List.mem_cons, not_or]
    refine ⟨?_, ih c (fun hm => h (List.mem_cons_of_mem _ hm))⟩
    intro hc
    apply h
    have hc2 : c = '_' := by
      split at hc
      · exact toUpper_eq_us_iff.1 hc.symm
      · exact hc.symm
    rw [hc2]
    exact List.mem_cons_self _ _

theorem mem_removeSpaces {c : Char} {l : List Char} (h : c ∈ removeSpaces l) : c ∈ l :=
  List.mem_of_mem_filter h

theorem space_not_mem_removeSpaces (l : List Char) : ' ' ∉ removeSpaces l := by
  intro h
  have := List.of_mem_filter h
  simp at this

theorem us_not_mem_camelList (l : List Char) : '_' ∉ camelList l :=
  fun h => us_not_mem_goTitleAux ' ' _ (us_not_mem_replaceUS _) (mem_removeSpaces h)

theorem goTitleAux_removeSpaces (u : List Char) : ∀ p q, (isSepChar q = true → isSepChar p = true) →
    goTitleAux q (removeSpaces (goTitleAux p u)) = removeSpaces (goTitleAux p u) := by
  induction u with
  | nil => intro p q h; rfl
  | cons c cs ih =>
    intro p q h
    have heq : goTitleAux p (c :: cs) =
        (if isSepChar p then c.toUpper else c) :: goTitleAux c cs := rfl
    rw [heq]
    by_cases hc : c = ' '
    · subst hc
      have hhead : (if isSepChar p then Char.toUpper ' ' else ' ') = ' ' := by
        split <;> rfl
      rw [hhead]
      have hdrop : removeSpaces (' ' :: goTitleAux ' ' cs) = removeSpaces (goTitleAux ' ' cs) := by
        simp only [removeSpaces]
        exact List.filter_cons_of_neg (by decide)
      rw [hdrop]
      exact ih ' ' q (fun _ => rfl)
    · have hcne : ((if isSepChar p then c.toUpper else c) != ' ') = true := by
        split
        · simp only [bne_iff_ne, ne_eq, toUpper_eq_space_iff]
          exact hc
        · simpa using hc
      have hcons : removeSpaces ((if isSepChar p then c.toUpper else c) :: goTitleAux c cs) =
          (if isSepChar p then c.toUpper else c) :: removeSpaces (goTitleAux c cs) := by
        simp only [removeSpaces]
        exact List.filter_cons_of_pos hcne
      rw [hcons]
      have heq2 : goTitleAux q ((if isSepChar p then c.toUpper else c) ::
            removeSpaces (goTitleAux c cs)) =
          (if isSepChar q then (if isSepChar p then c.toUpper else c).toUpper
              else (if isSepChar p then c.toUpper else c)) ::
            goTitleAux (if isSepChar p then c.toUpper else c)
              (removeSpaces (goTitleAux c cs)) := rfl
      rw [heq2]
      have hh : (if isSepChar q then (if isSepChar p then c.toUpper else c).toUpper
          else (if isSepChar p then c.toUpper else c)) = (if isSepChar p then c.toUpper else c) := by
        by_cases hq : isSepChar q = true
        · rw [if_pos hq, if_pos (h hq), toUpper_toUpper]
        · rw [if_neg hq]
      rw [hh]
      congr 1
      apply ih c
      intro hc'
      split at hc'
      · rwa [isSepChar_toUpper] at hc'
      · exact hc'

theorem replaceUS_eq_self {l : List Char} (h : '_' ∉ l) : replaceUS l = l := by
  induction l with
  | nil => rfl
  | cons c cs ih =>
    simp only [List.mem_cons, not_or] at h
    simp only [replaceUS, List.map_cons]
    rw [if_neg (fun hc => h.1 hc.symm)]
    exact congrArg (c :: ·) (ih h.2)

theorem removeSpaces_eq_self {l : List Char} (h : ' ' ∉ l) : removeSpaces l = l := by
  apply List.filter_eq_self.2
  intro a ha
  simp only [bne_iff_ne, ne_eq]
  intro hx
  exact h (hx ▸ ha)

theorem stripWl_eq_self {l : List Char} (h : '_' ∉ l) : stripWl l = l := by
  unfold stripWl
  rw [if_neg]
  simp only [startsWl, decide_eq_true_eq]
  intro htake
  apply h
  have hmem : '_' ∈ l.take 3 := by rw [htake]; simp
  exact List.take_subset _ _ hmem

theorem camelList_idem (l : List Char) : camelList (camelList l) = camelList l := by
  have hus : '_' ∉ camelList l := us_not_mem_camelList l
  have hsp : ' ' ∉ camelList l := space_not_mem_removeSpaces _
  show removeSpaces (goTitleAux ' ' (replaceUS (stripWl (camelList l)))) = camelList l
  rw [stripWl_eq_self hus, replaceUS_eq_self hus]
  show removeSpaces (goTitleAux ' '
      (removeSpaces (goTitleAux ' ' (replaceUS (stripWl l))))) = camelList l
  rw [goTitleAux_removeSpaces (replaceUS (stripWl l)) ' ' ' ' (fun h => h)]
  exact removeSpaces_eq_self hsp

/-- C8: the identifier-naming rule is idempotent — `CamelCase` applied to
its own output returns it unchanged — and calling `registerAndCase` twice
with the same native name returns the same generated identifier and leaves
the registry mapping identical (the key is overwritten with the same
value). -/
theorem c8_naming_idempotent_and_reregistration_identical :
    (∀ s : String, CamelCase (CamelCase s) = CamelCase s) ∧
    (∀ (m : Names) (n : String),
      (registerAndCase (registerAndCase m n).1 n).2 = (registerAndCase m n).2 ∧
      (registerAndCase (registerAndCase m n).1 n).1 = (registerAndCase m n).1 ∧
      (registerAndCase m n).1 n = (registerAndCase m n).2) := by
  constructor
  · intro s
    show (⟨camelList (camelList s.data)⟩ : String) = CamelCase s
    rw [camelList_idem]
    exact rfl
  · intro m n
    refine ⟨rfl, ?_, by simp [registerAndCase]⟩
    funext k
    by_cases hk : k = n <;> simp [registerAndCase, hk]

/-! ### Injectivity of the naming rule on canonical names (claim C7) -/

/-- Split a character list at underscores (an analysis helper: the inverse
view of snake_case names). -/
def splitUS : List Char → List (List Char)
  | [] => [[]]
  | c :: r =>
    if c = '_' then [] :: splitUS r
    else
      match splitUS r with
      | [] => [[c]]
      | w :: ws => (c :: w) :: ws

/-- Join words with single underscores (left inverse of `splitUS`). -/
def joinUS : List (List Char) → List Char
  | [] => []
  | [w] => w
  | w :: ws => w ++ '_' :: joinUS ws

/-- A character that may appear after the first position of a canonical
snake_case word: a lower-case ASCII letter or a digit. -/
def wordOkChar (c : Char) : Bool :=
  c.isLower || c.isDigit

/-- A canonical snake_case word: nonempty, lower-case first character,
lower-case letters and digits afterwards. -/
def wordOk : List Char → Bool
  | [] => false
  | c :: r => c.isLower && r.all wordOkChar

/-- A canonical snake_case name: every underscore-separated word is
canonical (so no empty words, no leading/trailing/double underscores). -/
def canonicalName (l : List Char) : Bool :=
  (splitUS l).all wordOk

/-- Capitalise the first character of a word. -/
def cap : List Char → List Char
  | [] => []
  | c :: r => c.toUpper :: r

/-- The camel-cased form of a word list. -/
def camelWords (ws : List (List Char)) : List Char :=
  (ws.map cap).flatten

/-- The `CamelCase` pipeline without the `wl_` strip. -/
def camelCore (l : List Char) : List Char :=
  removeSpaces (goTitleAux ' ' (replaceUS l))

theorem camelList_eq_core (l : List Char) : camelList l = camelCore (stripWl l) := rfl

theorem splitUS_ne_nil (l : List Char) : splitUS l ≠ [] := by
  induction l with
  | nil => simp [splitUS]
  | cons c r ih =>
    by_cases hc : c = '_'
    · simp [splitUS, hc]
    · simp only [splitUS, if_neg hc]
      rcases h : splitUS r with _ | ⟨w, ws⟩
      · simp
      · simp

theorem joinUS_cons_cons (w x : List Char) (xs : List (List Char)) :
    joinUS (w :: x :: xs) = w ++ '_' :: joinUS (x :: xs) := rfl

theorem joinUS_splitUS (l : List Char) : joinUS (splitUS l) = l := by
  induction l with
  | nil => rfl
  | cons c r ih =>
    by_cases hc : c = '_'
    · subst hc
      show joinUS ([] :: splitUS r) = '_' :: r
      rcases h : splitUS r with _ | ⟨w, ws⟩
      · exact absurd h (splitUS_ne_nil r)
      · rw [h] at ih
        rw [joinUS_cons_cons]
        simp only [List.nil_append]
        rw [ih]
    · simp only [splitUS, if_neg hc]
      rcases h : splitUS r with _ | ⟨w, ws⟩
      · exact absurd h (splitUS_ne_nil r)
      · rw [h] at ih
        rcases ws with _ | ⟨x, xs⟩
        · show c :: w = c :: r
          rw [show joinUS [w] = w from rfl] at ih
          rw [ih]
        · rw [joinUS_cons_cons] at ih
          show (c :: w) ++ '_' :: joinUS (x :: xs) = c :: r
          rw [List.cons_append, ih]

theorem splitUS_wl (r : List Char) : splitUS ('w' :: 'l' :: '_' :: r) = ['w', 'l'] :: splitUS r := by
  rcases h : splitUS r with _ | ⟨w, ws⟩
  · exact absurd h (splitUS_ne_nil r)
  · simp [splitUS, h]

theorem isSepChar_false_of_wordOkChar {c : Char} (h : wordOkChar c = true) :
    isSepChar c = false := by
  rw [isSepChar_eq_false_iff]
  rcases Bool.or_eq_true_iff.1 h with h' | h'
  · exact Or.inr (Or.inl (isLower_iff.1 h'))
  · exact Or.inl (isDigit_iff.1 h')

theorem isSepChar_false_of_lower {c : Char} (h : c.isLower = true) : isSepChar c = false := by
  rw [isSepChar_eq_false_iff]
  exact Or.inr (Or.inl (isLower_iff.1 h))

theorem isUpper_toUpper_of_lower {c : Char} (h : c.isLower = true) :
    (Char.toUpper c).isUpper = true := by
  rw [isUpper_iff, toNat_toUpper]
  rw [isLower_iff] at h
  rw [if_pos (by omega)]
  omega

theorem isUpper_false_of_wordOkChar {c : Char} (h : wordOkChar c = true) :
    c.isUpper = false := by
  rw [Bool.eq_false_iff, ne_eq, isUpper_iff]
  rcases Bool.or_eq_true_iff.1 h with h' | h'
  · rw [isLower_iff] at h'
    omega
  · rw [isDigit_iff] at h'
    omega

theorem toUpper_inj_on_lower {c d : Char} (hc : c.isLower = true) (hd : d.isLower = true)
    (h : Char.toUpper c = Char.toUpper d) : c = d := by
  rw [char_eq_iff_toNat] at h ⊢
  rw [toNat_toUpper, toNat_toUpper] at h
  rw [isLower_iff] at hc hd
  rw [if_pos (by omega), if_pos (by omega)] at h
  omega

theorem ne_us_of_wordOkChar {c : Char} (h : wordOkChar c = true) : c ≠ '_' := by
  intro hc
  have := eq_us_iff.1 hc
  rcases Bool.or_eq_true_iff.1 h with h' | h'
  · rw [isLower_iff] at h'
    omega
  · rw [isDigit_iff] at h'
    omega

theorem ne_space_of_wordOkChar {c : Char} (h : wordOkChar c = true) : c ≠ ' ' := by
  intro hc
  have h32 : c.toNat = 32 := char_eq_iff_toNat.1 hc
  rcases Bool.or_eq_true_iff.1 h with h' | h'
  · rw [isLower_iff] at h'
    omega
  · rw [isDigit_iff] at h'
    omega

theorem wordOkChar_of_lower {c : Char} (h : c.isLower = true) : wordOkChar c = true := by
  rw [wordOkChar, h, Bool.true_or]

theorem wordOk_head_tail {w : List Char} (hw : wordOk w = true) :
    ∃ c r, w = c :: r ∧ c.isLower = true ∧ r.all wordOkChar = true := by
  cases w with
  | nil => exact absurd hw (by simp [wordOk])
  | cons c r =>
    simp only [wordOk, Bool.and_eq_true] at hw
    exact ⟨c, r, rfl, hw.1, hw.2⟩

theorem us_not_mem_word {c : Char} {r : List Char} (hc : c.isLower = true)
    (hr : r.all wordOkChar = true) : '_' ∉ (c :: r) := by
  intro hm
  rcases List.mem_cons.1 hm with h | h
  · exact ne_us_of_wordOkChar (wordOkChar_of_lower hc) h.symm
  · exact ne_us_of_wordOkChar (List.all_eq_true.1 hr _ h) rfl

theorem space_not_mem_cap {c : Char} {r : List Char} (hc : c.isLower = true)
    (hr : r.all wordOkChar = true) : ' ' ∉ (Char.toUpper c :: r) := by
  intro hm
  rcases List.mem_cons.1 hm with h | h
  · have : c = ' ' := toUpper_eq_space_iff.1 h.symm
    exact ne_space_of_wordOkChar (wordOkChar_of_lower hc) this
  · exact ne_space_of_wordOkChar (List.all_eq_true.1 hr _ h) rfl

theorem goTitleAux_word_rest (r : List Char) : ∀ (p : Char) (rest : List Char),
    r.all wordOkChar = true → isSepChar p = false →
    goTitleAux p (r ++ ' ' :: rest) = r ++ ' ' :: goTitleAux ' ' rest := by
  induction r with
  | nil =>
    intro p rest _ hp
    show (if isSepChar p then Char.toUpper ' ' else ' ') :: goTitleAux ' ' rest = _
    rw [hp]
    simp
  | cons d r' ih =>
    intro p rest hall hp
    simp only [List.all_cons, Bool.and_eq_true] at hall
    show (if isSepChar p then d.toUpper else d) :: goTitleAux d (r' ++ ' ' :: rest) = _
    rw [hp]
    simp only [Bool.false_eq_true, if_false, List.cons_append, List.cons.injEq, true_and]
    exact ih d rest hall.2 (isSepChar_false_of_wordOkChar hall.1)

theorem goTitleAux_word_only (r : List Char) : ∀ (p : Char), r.all wordOkChar = true →
    isSepChar p = false → goTitleAux p r = r := by
  induction r with
  | nil => intro p _ _; rfl
  | cons d r' ih =>
    intro p hall hp
    simp only [List.all_cons, Bool.and_eq_true] at hall
    show (if isSepChar p then d.toUpper else d) :: goTitleAux d r' = _
    rw [hp]
    simp only [Bool.false_eq_true, if_false, List.cons.injEq, true_and]
    exact ih d hall.2 (isSepChar_false_of_wordOkChar hall.1)

theorem removeSpaces_append (a b : List Char) :
    removeSpaces (a ++ b) = removeSpaces a ++ removeSpaces b :=
  List.filter_append _ _

theorem removeSpaces_space_cons (b : List Char) : removeSpaces (' ' :: b) = removeSpaces b :=
  List.filter_cons_of_neg (by decide)

theorem camelCore_single (w : List Char) (hw : wordOk w = true) : camelCore w = cap w := by
  obtain ⟨c, r, rfl, hc, hr⟩ := wordOk_head_tail hw
  unfold camelCore
  rw [replaceUS_eq_self (us_not_mem_word hc hr)]
  show removeSpaces ((if isSepChar ' ' then c.toUpper else c) :: goTitleAux c r) = cap (c :: r)
  rw [if_pos (by decide), goTitleAux_word_only r c hr (isSepChar_false_of_lower hc)]
  exact removeSpaces_eq_self (space_not_mem_cap hc hr)

theorem camelCore_joinUS : ∀ (ws : List (List Char)), ws.all wordOk = true →
    camelCore (joinUS ws) = camelWords ws := by
  intro ws
  induction ws with
  | nil => intro _; rfl
  | cons w ws ih =>
    intro h
    simp only [List.all_cons, Bool.and_eq_true] at h
    obtain ⟨hw, hws⟩ := h
    rcases ws with _ | ⟨x, xs⟩
    · rw [show joinUS [w] = w from rfl, camelCore_single w hw]
      simp [camelWords]
    · rw [joinUS_cons_cons]
      obtain ⟨c, r, hwe, hc, hr⟩ := wordOk_head_tail hw
      subst hwe
      have hstep : replaceUS ((c :: r) ++ '_' :: joinUS (x :: xs)) =
          (c :: r) ++ ' ' :: replaceUS (joinUS (x :: xs)) := by
        show List.map _ ((c :: r) ++ '_' :: joinUS (x :: xs)) = _
        rw [List.map_append]
        congr 1
        exact replaceUS_eq_self (us_not_mem_word hc hr)
      unfold camelCore
      rw [hstep]
      have hgt : goTitleAux ' ' ((c :: r) ++ ' ' :: replaceUS (joinUS (x :: xs))) =
          (c.toUpper :: r) ++ ' ' :: goTitleAux ' ' (replaceUS (joinUS (x :: xs))) := by
        show (if isSepChar ' ' then c.toUpper else c) ::
            goTitleAux c (r ++ ' ' :: replaceUS (joinUS (x :: xs))) = _
        rw [if_pos (by decide)]
        rw [goTitleAux_word_rest r c _ hr (isSepChar_false_of_lower hc)]
        rfl
      rw [hgt]
      have hrs : removeSpaces ((c.toUpper :: r) ++
            ' ' :: goTitleAux ' ' (replaceUS (joinUS (x :: xs)))) =
          (c.toUpper :: r) ++ removeSpaces (goTitleAux ' ' (replaceUS (joinUS (x :: xs)))) := by
        rw [removeSpaces_append, removeSpaces_space_cons,
          removeSpaces_eq_self (space_not_mem_cap hc hr)]
      rw [hrs]
      have hih := ih hws
      unfold camelCore at hih
      rw [hih]
      simp [camelWords, cap]

/-- The first character of a camel-cased word sequence, when there is one,
is upper case. -/
def upperStart : List Char → Prop
  | [] => True
  | d :: _ => d.isUpper = true

theorem upperStart_camelWords {ws : List (List Char)} (h : ws.all wordOk = true) :
    upperStart (camelWords ws) := by
  cases ws with
  | nil => trivial
  | cons w ws =>
    simp only [List.all_cons, Bool.and_eq_true] at h
    obtain ⟨c, r, rfl, hc, hr⟩ := wordOk_head_tail h.1
    exact isUpper_toUpper_of_lower hc

theorem tail_cancel : ∀ (r1 r2 C1 C2 : List Char),
    (∀ c ∈ r1, c.isUpper = false) → (∀ c ∈ r2, c.isUpper = false) →
    upperStart C1 → upperStart C2 → r1 ++ C1 = r2 ++ C2 → r1 = r2 ∧ C1 = C2 := by
  intro r1
  induction r1 with
  | nil =>
    intro r2 C1 C2 _ h2 u1 _ heq
    cases r2 with
    | nil => exact ⟨rfl, heq⟩
    | cons b r2' =>
      exfalso
      simp only [List.nil_append, List.cons_append] at heq
      rw [heq] at u1
      have hb : b.isUpper = true := u1
      rw [h2 b (List.mem_cons_self _ _)] at hb
      exact Bool.false_ne_true hb
  | cons a r1' ih =>
    intro r2 C1 C2 h1 h2 u1 u2 heq
    cases r2 with
    | nil =>
      exfalso
      simp only [List.cons_append, List.nil_append] at heq
      rw [← heq] at u2
      have ha : a.isUpper = true := u2
      rw [h1 a (List.mem_cons_self _ _)] at ha
      exact Bool.false_ne_true ha
    | cons b r2' =>
      simp only [List.cons_append, List.cons.injEq] at heq
      obtain ⟨hab, htail⟩ := heq
      obtain ⟨hr, hC⟩ := ih r2' C1 C2 (fun c hm => h1 c (List.mem_cons_of_mem _ hm))
        (fun c hm => h2 c (List.mem_cons_of_mem _ hm)) u1 u2 htail
      exact ⟨by rw [hab, hr], hC⟩

theorem head_word_cancel {w1 w2 C1 C2 : List Char} (h1 : wordOk w1 = true) (h2 : wordOk w2 = true)
    (u1 : upperStart C1) (u2 : upperStart C2) (heq : cap w1 ++ C1 = cap w2 ++ C2) :
    w1 = w2 ∧ C1 = C2 := by
  obtain ⟨c1, r1, rfl, hc1, hr1⟩ := wordOk_head_tail h1
  obtain ⟨c2, r2, rfl, hc2, hr2⟩ := wordOk_head_tail h2
  simp only [cap, List.cons_append, List.cons.injEq] at heq
  obtain ⟨hhead, htail⟩ := heq
  have hc : c1 = c2 := toUpper_inj_on_lower hc1 hc2 hhead
  have ht := tail_cancel r1 r2 C1 C2
    (fun c hm => isUpper_false_of_wordOkChar (List.all_eq_true.1 hr1 _ hm))
    (fun c hm => isUpper_false_of_wordOkChar (List.all_eq_true.1 hr2 _ hm)) u1 u2 htail
  exact ⟨by rw [hc, ht.1], ht.2⟩

theorem camelWords_inj : ∀ (ws1 ws2 : List (List Char)), ws1.all wordOk = true →
    ws2.all wordOk = true → camelWords ws1 = camelWords ws2 → ws1 = ws2 := by
  intro ws1
  induction ws1 with
  | nil =>
    intro ws2 _ h2 heq
    cases ws2 with
    | nil => rfl
    | cons w t =>
      exfalso
      simp only [List.all_cons, Bool.and_eq_true] at h2
      obtain ⟨c, r, rfl, hc, hr⟩ := wordOk_head_tail h2.1
      simp [camelWords, cap] at heq
  | cons w1 t1 ih =>
    intro ws2 h1 h2 heq
    cases ws2 with
    | nil =>
      exfalso
      simp only [List.all_cons, Bool.and_eq_true] at h1
      obtain ⟨c, r, rfl, hc, hr⟩ := wordOk_head_tail h1.1
      simp [camelWords, cap] at heq
    | cons w2 t2 =>
      simp only [List.all_cons, Bool.and_eq_true] at h1 h2
      simp only [camelWords, List.map_cons, List.flatten_cons] at heq
      have hsplit := head_word_cancel h1.1 h2.1 (upperStart_camelWords h1.2)
        (upperStart_camelWords h2.2) heq
      rw [hsplit.1, ih t2 h1.2 h2.2 hsplit.2]

theorem camelCore_inj {x y : List Char} (hx : canonicalName x = true) (hy : canonicalName y = true)
    (heq : camelCore x = camelCore y) : x = y := by
  have hbx : camelCore x = camelWords (splitUS x) := by
    conv_lhs => rw [← joinUS_splitUS x]
    exact camelCore_joinUS (splitUS x) hx
  have hby : camelCore y = camelWords (splitUS y) := by
    conv_lhs => rw [← joinUS_splitUS y]
    exact camelCore_joinUS (splitUS y) hy
  have hw : camelWords (splitUS x) = camelWords (splitUS y) := by
    rw [← hbx, ← hby, heq]
  have hsp := camelWords_inj _ _ hx hy hw
  rw [← joinUS_splitUS x, ← joinUS_splitUS y, hsp]

theorem take3_eq (l : List Char) (h : l.take 3 = ['w', 'l', '_']) :
    l = 'w' :: 'l' :: '_' :: l.drop 3 := by
  conv_lhs => rw [← List.take_append_drop 3 l]
  rw [h]
  rfl

/-- C7 (amended): the identifier-naming rule never maps two distinct
canonical snake_case native names (nonempty words of a lower-case letter
followed by lower-case letters or digits, joined by single underscores)
to the same generated identifier, provided the two names agree on whether
they carry the strippable `wl_` marker.  (As stated, without the last two
restrictions, the claim is false: see the counterexample theorem.) -/
theorem c7_camelcase_injective_on_canonical_names (s t : String)
    (hs : canonicalName s.data = true) (ht : canonicalName t.data = true)
    (hwl : startsWl s.data = startsWl t.data) (hne : s ≠ t) :
    CamelCase s ≠ CamelCase t := by
  intro heqS
  apply hne
  have heq : camelList s.data = camelList t.data := congrArg String.data heqS
  rw [camelList_eq_core s.data, camelList_eq_core t.data] at heq
  have hdata : s.data = t.data := by
    by_cases hw : startsWl s.data = true
    · have hw2 : startsWl t.data = true := by
        rw [← hwl]
        exact hw
      have hs3 := take3_eq s.data (by simpa [startsWl] using hw)
      have ht3 := take3_eq t.data (by simpa [startsWl] using hw2)
      unfold stripWl at heq
      rw [if_pos hw, if_pos hw2] at heq
      have hcs : canonicalName (s.data.drop 3) = true := by
        have h' := hs
        rw [hs3] at h'
        unfold canonicalName at h'
        rw [splitUS_wl] at h'
        simp only [List.all_cons, Bool.and_eq_true] at h'
        exact h'.2
      have hct : canonicalName (t.data.drop 3) = true := by
        have h' := ht
        rw [ht3] at h'
        unfold canonicalName at h'
        rw [splitUS_wl] at h'
        simp only [List.all_cons, Bool.and_eq_true] at h'
        exact h'.2
      have hdq := camelCore_inj hcs hct heq
      rw [hs3, ht3, hdq]
    · have hw2 : ¬ startsWl t.data = true := by
        rw [← hwl]
        exact hw
      unfold stripWl at heq
      rw [if_neg hw, if_neg hw2] at heq
      exact camelCore_inj hs ht heq
  show s = t
  calc s = ⟨s.data⟩ := rfl
    _ = ⟨t.data⟩ := by rw [hdata]
    _ = t := rfl

/-- Witness for the amended C7 theorem at two concrete canonical names. -/
theorem c7_camelcase_injective_witness :
    canonicalName ("wl_display" : String).data = true ∧
    canonicalName ("wl_output" : String).data = true ∧
    startsWl ("wl_display" : String).data = startsWl ("wl_output" : String).data ∧
    ("wl_display" : String) ≠ "wl_output" ∧
    CamelCase "wl_display" ≠ CamelCase "wl_output" :=
  ⟨by decide, by decide, by decide, by decide,
    c7_camelcase_injective_on_canonical_names "wl_display" "wl_output"
      (by decide) (by decide) (by decide) (by decide)⟩

/-- C7 as frozen is false on the code: the distinct native names
`wl_foo` and `foo` are both mapped to the generated identifier `Foo`,
because the `wl_` marker is stripped from the first. -/
theorem c7_counterexample_distinct_names_collide :
    ("wl_foo" : String) ≠ "foo" ∧ CamelCase "wl_foo" = CamelCase "foo" :=
  ⟨by decide, by decide⟩

/-! ### Request codes are document-order ordinals (claim C1) -/

theorem string_foldl_append (l : List String) : ∀ (a : String),
    l.foldl (· ++ ·) a = a ++ String.join l := by
  induction l with
  | nil =>
    intro a
    symm
    exact String.append_empty a
  | cons s l ih =>
    intro a
    show l.foldl (· ++ ·) (a ++ s) = a ++ String.join (s :: l)
    rw [ih (a ++ s)]
    have hj : String.join (s :: l) = s ++ String.join l := by
      show l.foldl (· ++ ·) ("" ++ s) = _
      rw [String.empty_append, ih s]
    rw [hj, String.append_assoc]

theorem join_cons (s : String) (l : List String) : String.join (s :: l) = s ++ String.join l := by
  show l.foldl (· ++ ·) ("" ++ s) = _
  rw [String.empty_append, string_foldl_append l s]

theorem foldl_pair_append {α : Type} (f g : α → String) :
    ∀ (l : List α) (a b : String),
      l.foldl (fun acc x => (acc.1 ++ f x, acc.2 ++ g x)) (a, b) =
        (a ++ String.join (l.map f), b ++ String.join (l.map g)) := by
  intro l
  induction l with
  | nil =>
    intro a b
    show (a, b) = _
    rw [List.map_nil, List.map_nil, show String.join ([] : List String) = "" from rfl,
      String.append_empty, String.append_empty]
  | cons x l ih =>
    intro a b
    show l.foldl _ (a ++ f x, b ++ g x) = _
    rw [ih (a ++ f x) (b ++ g x), List.map_cons, List.map_cons, join_cons, join_cons,
      String.append_assoc, String.append_assoc]

theorem emitRequestsFold_eq (m : Names) (ifn : String) (reqs : List Request) :
    emitRequestsFold m ifn reqs =
      (String.join ((reqCodePairs ifn reqs).map reqCodeLine),
       String.join (reqs.enum.map
         (fun p => methodText m ifn p.2 (reqCodeName ifn (CamelCase p.2.name))))) := by
  unfold emitRequestsFold
  show reqs.enum.foldl
      (fun acc p => (acc.1 ++ reqCodeLine (reqCodeName ifn (CamelCase p.2.name), p.1),
        acc.2 ++ methodText m ifn p.2 (reqCodeName ifn (CamelCase p.2.name)))) ("", "") = _
  rw [foldl_pair_append
    (fun p : Nat × Request => reqCodeLine (reqCodeName ifn (CamelCase p.2.name), p.1))
    (fun p : Nat × Request => methodText m ifn p.2 (reqCodeName ifn (CamelCase p.2.name)))
    reqs.enum "" ""]
  rw [String.empty_append, String.empty_append]
  rw [reqCodePairs, List.map_map]
  rfl

/-- C1: the request loop emits exactly one request-code line per request,
in document order; the emitted code of a request is its zero-based ordinal
position in the interface's request sequence (so the codes of `[a, b, c]`
are `0, 1, 2`, and a request inserted before `c` renumbers `c` to `3` on
the next run, since the codes are recomputed from positions alone). -/
theorem c1_request_codes_are_ordinals (m : Names) (ifn : String) (reqs : List Request) :
    (emitRequestsFold m ifn reqs).1 = String.join ((reqCodePairs ifn reqs).map reqCodeLine) ∧
    (reqCodePairs ifn reqs).length = reqs.length ∧
    (reqCodePairs ifn reqs).map Prod.snd = List.range reqs.length ∧
    (∀ (i : Nat) (r : Request), reqs[i]? = some r →
      (reqCodePairs ifn reqs)[i]? = some (reqCodeName ifn (CamelCase r.name), i)) := by
  refine ⟨?_, ?_, ?_, ?_⟩
  · rw [emitRequestsFold_eq]
  · rw [reqCodePairs, List.length_map]
    exact List.enumFrom_length
  · rw [reqCodePairs, List.map_map]
    have hc : (Prod.snd ∘ fun p : Nat × Request =>
        (reqCodeName ifn (CamelCase p.2.name), p.1)) = Prod.fst := rfl
    rw [hc]
    rw [show reqs.enum = List.enumFrom 0 reqs from rfl]
    rw [List.enumFrom_map_fst, List.range_eq_range']
  · intro i r hr
    rw [reqCodePairs, List.getElem?_map]
    rw [show reqs.enum = List.enumFrom 0 reqs from rfl, List.getElem?_enumFrom, hr]
    simp

/-- Witness for C1 at the insertion scenario of the spec: with the request
list `[a, b, new_request, c]` the element `c` sits at index `3` and its
emitted code is `3`. -/
theorem c1_request_codes_witness :
    ([{ name := "a", args := [] }, { name := "b", args := [] },
      { name := "new_request", args := [] }, { name := "c", args := [] }] :
        List Request)[3]? = some { name := "c", args := [] } ∧
    (reqCodePairs "Foo" [{ name := "a", args := [] }, { name := "b", args := [] },
      { name := "new_request", args := [] }, { name := "c", args := [] }])[3]? =
      some (reqCodeName "Foo" (CamelCase "c"), 3) :=
  ⟨by decide,
    (c1_request_codes_are_ordinals (fun _ => "") "Foo"
      [{ name := "a", args := [] }, { name := "b", args := [] },
       { name := "new_request", args := [] }, { name := "c", args := [] }]).2.2.2 3
      { name := "c", args := [] } (by decide)⟩

/-! ### New-id elision and the return tuple (claim C2) -/

/-- Per-argument signature contribution (the body of the `requestArgs`
loop expressed argument-wise): a known-interface new-id argument
contributes nothing, an unknown-interface new-id expands to three
parameters, a known object becomes a pointer, anything else consults the
primitive table. -/
def sigParams (m : Names) (arg : Arg) : List String :=
  if arg.typ = "new_id" then
    if arg.iface = "" then ["iface string", "version uint32", arg.name ++ " Proxy"]
    else []
  else if arg.typ = "object" ∧ arg.iface ≠ "" then [arg.name ++ " *" ++ m arg.iface]
  else [arg.name ++ " " ++ wlTypesD arg.typ]

/-- Is the argument a new-id with a statically known interface? -/
def isKnownNewId (arg : Arg) : Bool :=
  arg.typ == "new_id" && arg.iface != ""

theorem requestArgsStep_known {m : Names} {args : List String} {a : Arg}
    (h : isKnownNewId a = true) : requestArgsStep m args a = args := by
  simp only [isKnownNewId, Bool.and_eq_true, beq_iff_eq, bne_iff_ne, ne_eq] at h
  rw [requestArgsStep, if_pos h.1, if_neg h.2]

theorem requestArgsStep_notKnown {m : Names} {args : List String} {a : Arg}
    (h : isKnownNewId a = false) : requestArgsStep m args a = args ++ sigParams m a := by
  simp only [isKnownNewId, Bool.and_eq_false_iff, beq_eq_false_iff_ne, ne_eq,
    bne_eq_false_iff_eq] at h
  by_cases h1 : a.typ = "new_id"
  · rcases h with h | h
    · exact absurd h1 h
    · rw [requestArgsStep, if_pos h1, if_pos h, sigParams, if_pos h1, if_pos h]
  · rw [requestArgsStep, if_neg h1, sigParams, if_neg h1]
    by_cases h2 : a.typ = "object" ∧ a.iface ≠ ""
    · rw [if_pos h2, if_pos h2]
    · rw [if_neg h2, if_neg h2]

theorem requestArgs_foldl (m : Names) : ∀ (l : List Arg) (acc : List String),
    l.foldl (requestArgsStep m) acc =
      acc ++ (l.filter (fun a => !isKnownNewId a)).flatMap (sigParams m) := by
  intro l
  induction l with
  | nil =>
    intro acc
    simp
  | cons a l ih =>
    intro acc
    show l.foldl (requestArgsStep m) (requestArgsStep m acc a) = _
    rcases hk : isKnownNewId a with _ | _
    · rw [requestArgsStep_notKnown hk, ih, List.filter_cons_of_pos (by simp [hk]),
        List.flatMap_cons, List.append_assoc]
    · rw [requestArgsStep_known hk, ih, List.filter_cons_of_neg (by simp [hk])]

theorem requestRets_foldl (m : Names) : ∀ (l : List Arg) (acc : List String),
    l.foldl (fun rets arg =>
        if arg.typ = "new_id" ∧ arg.iface ≠ "" then rets ++ ["*" ++ m arg.iface] else rets) acc =
      acc ++ (l.filter isKnownNewId).map (fun a => "*" ++ m a.iface) := by
  intro l
  induction l with
  | nil =>
    intro acc
    simp
  | cons a l ih =>
    intro acc
    rcases hk : isKnownNewId a with _ | _
    · have h' : ¬(a.typ = "new_id" ∧ a.iface ≠ "") := by
        simp only [isKnownNewId, Bool.and_eq_false_iff, beq_eq_false_iff_ne, ne_eq,
          bne_eq_false_iff_eq] at hk
        rintro ⟨h1, h2⟩
        rcases hk with h | h
        · exact h h1
        · exact h2 h
      show l.foldl _ (if a.typ = "new_id" ∧ a.iface ≠ "" then acc ++ _ else acc) = _
      rw [if_neg h', ih, List.filter_cons_of_neg (by simp [hk])]
    · have h' : a.typ = "new_id" ∧ a.iface ≠ "" := by
        simpa only [isKnownNewId, Bool.and_eq_true, beq_iff_eq, bne_iff_ne, ne_eq] using hk
      show l.foldl _ (if a.typ = "new_id" ∧ a.iface ≠ "" then acc ++ _ else acc) = _
      rw [if_pos h', ih, List.filter_cons_of_pos (by simp [hk]), List.map_cons,
        List.append_assoc]
      rfl

theorem prim_not_special {t : String} (h : (wlTypes t).isSome = true) :
    t ≠ "new_id" ∧ t ≠ "object" := by
  constructor <;> intro he <;> subst he <;> exact absurd h (by decide)

/-- C2: in the generated method signature a known-interface new-id
argument contributes no input parameter (the parameter list is exactly the
concatenated contributions of the non-elided arguments in document order),
and the return tuple is one pointer per known-interface new-id argument,
in document order, followed by exactly one error value last; in particular
one known-interface new-id argument plus two primitive arguments yield
exactly two input parameters and exactly two return values. -/
theorem c2_newid_elision_and_return_tuple (m : Names) (req : Request) :
    requestArgsList m req =
      (req.args.filter (fun a => !isKnownNewId a)).flatMap (sigParams m) ∧
    requestRetsList m req =
      (req.args.filter isKnownNewId).map (fun a => "*" ++ m a.iface) ++ [" error"] ∧
    (requestRetsList m req).getLast? = some " error" ∧
    (∀ a1 a2 a3, req.args = [a1, a2, a3] → isKnownNewId a1 = true →
      (wlTypes a2.typ).isSome = true → a2.iface = "" →
      (wlTypes a3.typ).isSome = true → a3.iface = "" →
      (requestArgsList m req).length = 2 ∧ (requestRetsList m req).length = 2) := by
  have hargs : requestArgsList m req =
      (req.args.filter (fun a => !isKnownNewId a)).flatMap (sigParams m) := by
    rw [requestArgsList, requestArgs_foldl m req.args []]
    rw [List.nil_append]
  have hrets : requestRetsList m req =
      (req.args.filter isKnownNewId).map (fun a => "*" ++ m a.iface) ++ [" error"] := by
    rw [requestRetsList, requestRets_foldl m req.args []]
    rw [List.nil_append]
  refine ⟨hargs, hrets, ?_, ?_⟩
  · rw [hrets, List.getLast?_append]
    rfl
  · intro a1 a2 a3 hl h1 hp2 hi2 hp3 hi3
    have hk2 : isKnownNewId a2 = false := by
      simp only [isKnownNewId, Bool.and_eq_false_iff, beq_eq_false_iff_ne, ne_eq]
      exact Or.inl (prim_not_special hp2).1
    have hk3 : isKnownNewId a3 = false := by
      simp only [isKnownNewId, Bool.and_eq_false_iff, beq_eq_false_iff_ne, ne_eq]
      exact Or.inl (prim_not_special hp3).1
    have hs2 : sigParams m a2 = [a2.name ++ " " ++ wlTypesD a2.typ] := by
      rw [sigParams, if_neg (prim_not_special hp2).1,
        if_neg (fun hc => (prim_not_special hp2).2 hc.1)]
    have hs3 : sigParams m a3 = [a3.name ++ " " ++ wlTypesD a3.typ] := by
      rw [sigParams, if_neg (prim_not_special hp3).1,
        if_neg (fun hc => (prim_not_special hp3).2 hc.1)]
    constructor
    · rw [hargs, hl]
      rw [List.filter_cons_of_neg (by simp [h1]), List.filter_cons_of_pos (by simp [hk2]),
        List.filter_cons_of_pos (by simp [hk3]), List.filter_nil]
      rw [List.flatMap_cons, List.flatMap_cons, List.flatMap_nil, hs2, hs3]
      rfl
    · rw [hrets, hl]
      rw [List.filter_cons_of_pos (by simp [h1]), List.filter_cons_of_neg (by simp [hk2]),
        List.filter_cons_of_neg (by simp [hk3]), List.filter_nil]
      rfl

/-- A protocol argument literal (only the three fields the generator
reads). -/
def mkArg (n t i : String) : Arg :=
  { name := n, typ := t, iface := i }

/-- Witness for C2 at a concrete request: one known-interface new-id
argument (`id`), one `int` and one `uint` argument give exactly two
parameters and two return values. -/
theorem c2_newid_elision_witness :
    ([mkArg "id" "new_id" "wl_buffer", mkArg "x" "int" "", mkArg "y" "uint" ""] =
      [mkArg "id" "new_id" "wl_buffer", mkArg "x" "int" "", mkArg "y" "uint" ""]) ∧
    (requestArgsList (fun _ => "")
      { name := "create_buffer", args :=
        [mkArg "id" "new_id" "wl_buffer", mkArg "x" "int" "", mkArg "y" "uint" ""] }).length = 2 ∧
    (requestRetsList (fun _ => "")
      { name := "create_buffer", args :=
        [mkArg "id" "new_id" "wl_buffer", mkArg "x" "int" "", mkArg "y" "uint" ""] }).length = 2 :=
  ⟨rfl,
    (c2_newid_elision_and_return_tuple (fun _ => "")
      { name := "create_buffer", args :=
        [mkArg "id" "new_id" "wl_buffer", mkArg "x" "int" "", mkArg "y" "uint" ""] }).2.2.2
      (mkArg "id" "new_id" "wl_buffer") (mkArg "x" "int" "") (mkArg "y" "uint" "")
      rfl (by decide) (by decide) (by decide) (by decide) (by decide)⟩

/-! ### Request body: construction, dispatch, return (claim C3) -/

/-- Per-argument dispatch-parameter contribution of the `requestBody`
loop: `Proxy(ret)` substituted for a known-interface new-id, the three
expanded names for an unknown new-id, the argument name otherwise. -/
def bodyParam (arg : Arg) : List String :=
  if arg.typ = "new_id" then
    if arg.iface ≠ "" then ["Proxy(ret)"] else ["iface", "version", arg.name]
  else [arg.name]

/-- Number of commas in a string; on the `hasRetType` accumulator this
counts the returned constructed-instance names, each of which the
generator writes with a trailing comma. -/
def commaCount (s : String) : Nat :=
  s.data.count ','

theorem requestBodyStep_known {m : Names} {acc : List String × List String × String} {a : Arg}
    (h : isKnownNewId a = true) :
    requestBodyStep m acc a =
      (acc.1 ++ ["ret := New" ++ m a.iface ++ "(p.Connection())\n"],
       acc.2.1 ++ ["Proxy(ret)"], "ret,") := by
  simp only [isKnownNewId, Bool.and_eq_true, beq_iff_eq, bne_iff_ne, ne_eq] at h
  rw [requestBodyStep, if_pos h.1, if_pos h.2]

theorem requestBodyStep_notKnown {m : Names} {acc : List String × List String × String} {a : Arg}
    (h : isKnownNewId a = false) :
    requestBodyStep m acc a = (acc.1, acc.2.1 ++ bodyParam a, acc.2.2) := by
  simp only [isKnownNewId, Bool.and_eq_false_iff, beq_eq_false_iff_ne, ne_eq,
    bne_eq_false_iff_eq] at h
  by_cases h1 : a.typ = "new_id"
  · rcases h with h | h
    · exact absurd h1 h
    · rw [requestBodyStep, if_pos h1, if_neg (by simpa using h), bodyParam, if_pos h1,
        if_neg (by simpa using h)]
  · rw [requestBodyStep, if_neg h1, bodyParam, if_neg h1]

theorem bodyParam_known {a : Arg} (h : isKnownNewId a = true) : bodyParam a = ["Proxy(ret)"] := by
  simp only [isKnownNewId, Bool.and_eq_true, beq_iff_eq, bne_iff_ne, ne_eq] at h
  rw [bodyParam, if_pos h.1, if_pos h.2]

theorem requestBody_foldl (m : Names) : ∀ (l : List Arg) (b p : List String) (h : String),
    l.foldl (requestBodyStep m) (b, p, h) =
      (b ++ (l.filter isKnownNewId).map
          (fun a => "ret := New" ++ m a.iface ++ "(p.Connection())\n"),
       p ++ l.flatMap bodyParam,
       if l.any isKnownNewId then "ret," else h) := by
  intro l
  induction l with
  | nil =>
    intro b p h
    simp
  | cons a l ih =>
    intro b p h
    show l.foldl (requestBodyStep m) (requestBodyStep m (b, p, h) a) = _
    rcases hk : isKnownNewId a with _ | _
    · rw [requestBodyStep_notKnown hk]
      rw [ih]
      rw [List.filter_cons_of_neg (by simp [hk]), List.flatMap_cons, List.append_assoc]
      have hany : (a :: l).any isKnownNewId = l.any isKnownNewId := by
        simp [hk]
      rw [hany]
    · rw [requestBodyStep_known hk]
      rw [ih]
      rw [List.filter_cons_of_pos (by simp [hk]), List.flatMap_cons, bodyParam_known hk,
        List.map_cons, List.append_assoc, List.append_assoc]
      have hany : (a :: l).any isKnownNewId = true := by
        simp [hk]
      rw [hany, if_pos rfl]
      have : (if l.any isKnownNewId = true then "ret," else "ret,") = "ret," := ite_self _
      rw [this]
      rfl

/-- C3 (amended): for every request with at most one known-interface
new-id argument (every request of the reference protocol satisfies this),
the generated body constructs one new instance per such argument, issues
the single dispatch call with the receiver, the code constant and the full
original parameter list with `Proxy(ret)` substituted for the elided
parameter, and the return statement returns the constructed instances
(counted by the commas of the `hasRetType` accumulator) followed by the
dispatch call's error value.  (With two or more known-interface new-id
arguments the return statement no longer returns them all: see the
counterexample theorem.) -/
theorem c3_request_body_single_dispatch (m : Names) (req : Request) (codeN : String)
    (h : (req.args.filter isKnownNewId).length ≤ 1) :
    (requestBodyParts m req).1 =
      (req.args.filter isKnownNewId).map
        (fun a => "ret := New" ++ m a.iface ++ "(p.Connection())\n") ∧
    (requestBodyParts m req).2.1 = req.args.flatMap bodyParam ∧
    commaCount (requestBodyParts m req).2.2 = (req.args.filter isKnownNewId).length ∧
    requestBody m req codeN =
      String.join (requestBodyParts m req).1 ++ "return " ++ (requestBodyParts m req).2.2 ++
        " p.Connection().SendRequest(p," ++ codeN ++
        String.join ((requestBodyParts m req).2.1.map (fun q => "," ++ q)) ++ ")" := by
  have hfold := requestBody_foldl m req.args [] [] ""
  have h1 : (requestBodyParts m req).1 =
      (req.args.filter isKnownNewId).map
        (fun a => "ret := New" ++ m a.iface ++ "(p.Connection())\n") := by
    rw [requestBodyParts, hfold]
    exact List.nil_append _
  have h2 : (requestBodyParts m req).2.1 = req.args.flatMap bodyParam := by
    rw [requestBodyParts, hfold]
    exact List.nil_append _
  have h3 : commaCount (requestBodyParts m req).2.2 =
      (req.args.filter isKnownNewId).length := by
    rw [requestBodyParts, hfold]
    rcases hany : req.args.any isKnownNewId with _ | _
    · have hnil : req.args.filter isKnownNewId = [] := by
        rw [List.filter_eq_nil_iff]
        intro a ha
        have := List.any_eq_false.1 hany a ha
        simpa using this
      rw [hnil, if_neg (by simp : ¬(false = true))]
      rfl
    · obtain ⟨a, ha, hpa⟩ := List.any_eq_true.1 hany
      have hmem : a ∈ req.args.filter isKnownNewId := List.mem_filter.2 ⟨ha, hpa⟩
      have hpos : 0 < (req.args.filter isKnownNewId).length :=
        List.length_pos_of_mem hmem
      have hlen : (req.args.filter isKnownNewId).length = 1 := by
        omega
      rw [hlen, if_pos (rfl : true = true)]
      show commaCount "ret," = 1
      decide
  exact ⟨h1, h2, h3, rfl⟩

/-- C3 as frozen is false for a request with two known-interface new-id
arguments: the body constructs two instances, but the emitted return
statement carries only the single shared `ret` name (one returned
constructed instance, not two). -/
theorem c3_counterexample_two_newid_args :
    ((requestBodyParts (fun _ => "Iface")
        { name := "r", args := [mkArg "a" "new_id" "ia", mkArg "b" "new_id" "ib"] }).1).length = 2 ∧
    commaCount (requestBodyParts (fun _ => "Iface")
        { name := "r", args := [mkArg "a" "new_id" "ia", mkArg "b" "new_id" "ib"] }).2.2 = 1 ∧
    ¬ (commaCount (requestBodyParts (fun _ => "Iface")
          { name := "r", args := [mkArg "a" "new_id" "ia", mkArg "b" "new_id" "ib"] }).2.2 =
        ((requestBodyParts (fun _ => "Iface")
          { name := "r", args := [mkArg "a" "new_id" "ia", mkArg "b" "new_id" "ib"] }).1).length) := by
  decide

/-- Witness for the amended C3 theorem at a concrete request with one
known-interface new-id argument and one primitive argument. -/
theorem c3_request_body_witness :
    ((({ name := "sync", args := [mkArg "callback" "new_id" "wl_callback", mkArg "n" "uint" ""] } :
        Request).args.filter isKnownNewId).length ≤ 1) ∧
    commaCount (requestBodyParts (fun _ => "Callback")
        { name := "sync", args := [mkArg "callback" "new_id" "wl_callback", mkArg "n" "uint" ""] }).2.2 =
      (({ name := "sync", args := [mkArg "callback" "new_id" "wl_callback", mkArg "n" "uint" ""] } :
        Request).args.filter isKnownNewId).length :=
  ⟨by decide,
    (c3_request_body_single_dispatch (fun _ => "Callback")
      { name := "sync", args := [mkArg "callback" "new_id" "wl_callback", mkArg "n" "uint" ""] }
      "_DISPLAY_SYNC" (by decide)).2.2.1⟩

/-! ### Event channels and the constructor (claim C9) -/

theorem emitEvents_names_acc (ifn : String) : ∀ (events : List Event) (m : Names) (t : String)
    (ns : List String),
    (events.foldl (emitEventsStep ifn) (m, t, ns)).2.2 =
      ns ++ events.map (fun e => CamelCase e.name) := by
  intro events
  induction events with
  | nil =>
    intro m t ns
    simp
  | cons e es ih =>
    intro m t ns
    show (es.foldl (emitEventsStep ifn) (emitEventsStep ifn (m, t, ns) e)).2.2 = _
    rw [show emitEventsStep ifn (m, t, ns) e =
      ((registerAndCase m e.name).1,
       t ++ eventStructText (registerAndCase m e.name).1 ifn (registerAndCase m e.name).2 e,
       ns ++ [(registerAndCase m e.name).2]) from rfl]
    rw [ih]
    rw [show (registerAndCase m e.name).2 = CamelCase e.name from rfl]
    rw [List.map_cons, List.append_assoc]
    rfl

/-- C9: for an interface with N events the generated interface type has
exactly N event-channel fields — one `<Event>Chan chan <Iface><Event>Event`
line per event, in document order — and the generated constructor
allocates the value, initialises exactly those same N channels with
matching element types, registers the instance with the passed-in
connection, and returns it. -/
theorem c9_event_channels_complete (m : Names) (ifn : String) (iface : Interface) :
    (emitEvents m ifn iface.events).2.2 = iface.events.map (fun e => CamelCase e.name) ∧
    ((emitEvents m ifn iface.events).2.2).length = iface.events.length ∧
    ifaceStructText ifn ((emitEvents m ifn iface.events).2.2) =
      "\ntype " ++ ifn ++ " struct \x7b\nBaseProxy\n" ++
        String.join ((iface.events.map (fun e => CamelCase e.name)).map (chanFieldLine ifn)) ++
        "\x7d\n" ∧
    ifaceCtorText ifn ((emitEvents m ifn iface.events).2.2) =
      "\nfunc New" ++ ifn ++ "(conn *Connection) *" ++ ifn ++ " \x7b\n" ++
        "ret := new(" ++ ifn ++ ")\n" ++
        String.join ((iface.events.map (fun e => CamelCase e.name)).map (ctorInitLine ifn)) ++
        "conn.Register(ret)\nreturn ret\n\x7d\n" := by
  have h0 : (emitEvents m ifn iface.events).2.2 =
      iface.events.map (fun e => CamelCase e.name) := by
    rw [emitEvents, emitEvents_names_acc]
    exact List.nil_append _
  refine ⟨h0, ?_, ?_, ?_⟩
  · rw [h0, List.length_map]
  · rw [h0, ifaceStructText]
  · rw [h0, ifaceCtorText]

/-! ### Determinism of the generator (claim C10) -/

/-- C10: the generator is a pure function of the parsed protocol — it
ranges over no Go map (the registry is only keyed into), so two runs on
byte-for-byte identical input produce byte-for-byte identical output text,
in the fixed order constants block, request-code block, interface block. -/
theorem c10_generator_deterministic (p q : Protocol) (h : p = q) : generate p = generate q := by
  rw [h]

/-- A concrete two-interface protocol used to witness determinism. -/
def displayProtocol : Protocol :=
  { interfaces :=
      [{ name := "wl_display",
         requests := [{ name := "sync", args := [mkArg "callback" "new_id" "wl_callback"] }],
         events := [],
         enums := [] },
       { name := "wl_callback",
         requests := [],
         events := [{ name := "done", args := [mkArg "callback_data" "uint" ""] }],
         enums := [] }] }

/-- Witness for C10 at a concrete two-interface protocol. -/
theorem c10_generator_deterministic_witness :
    generate displayProtocol = generate displayProtocol :=
  c10_generator_deterministic displayProtocol displayProtocol rfl

/-! ### Unregistered interface names (claim C4) -/

/-- A one-interface protocol whose request references the unregistered
interface name `missing`. -/
def missingIfaceProtocol : Protocol :=
  { interfaces :=
      [{ name := "foo",
         requests := [{ name := "bar", args := [mkArg "x" "object" "missing"] }],
         events := [],
         enums := [] }] }

set_option maxRecDepth 8192 in
/-- C4 is violated by the code: an object argument whose interface name
was never registered does not abort the run — the registry lookup returns
the Go zero value `""` and the generator silently emits the parameter
`x *` (a pointer to an empty type name); the full run completes and
produces output containing `Bar(x *)`.  The event-field path likewise
yields the bare `*`. -/
theorem c4_unregistered_interface_yields_empty_type :
    requestArgs (pass1 missingIfaceProtocol)
      { name := "bar", args := [mkArg "x" "object" "missing"] } = "x *" ∧
    eventFieldType (pass1 missingIfaceProtocol) (mkArg "y" "new_id" "missing") = "*" ∧
    generate missingIfaceProtocol =
      "package wl\n//Interface Request Codes\n\nconst (\n_FOO_BAR = 0\n)\ntype Foo struct \x7b\nBaseProxy\n\x7d\n\nfunc NewFoo(conn *Connection) *Foo \x7b\nret := new(Foo)\nconn.Register(ret)\nreturn ret\n\x7d\n\nfunc (p *Foo) Bar(x *) error\x7b\nreturn  p.Connection().SendRequest(p,_FOO_BAR,x)\n\x7d\n" := by
  refine ⟨by decide, by decide, ?_⟩
  rfl

/-! ### The primitive type table (claim C5) -/

/-- C5, first half confirmed: the primitive table is defined on exactly
the six kinds `int`, `uint`, `string`, `fd`, `fixed`, `array`, with one
target type each.  Second half violated: an argument of an unrecognised
kind does not make the generator fail — in a request signature it is
silently given the empty type (`x `), and in an event field position it is
silently defaulted to `Proxy`. -/
theorem c5_primitive_table_exactly_six_and_silent_default :
    (∀ t : String, (wlTypes t).isSome = true ↔
      t = "int" ∨ t = "uint" ∨ t = "string" ∨ t = "fd" ∨ t = "fixed" ∨ t = "array") ∧
    wlTypes "int" = some "int32" ∧ wlTypes "uint" = some "uint32" ∧
    wlTypes "string" = some "string" ∧ wlTypes "fd" = some "uintptr" ∧
    wlTypes "fixed" = some "float32" ∧ wlTypes "array" = some "[]int32" ∧
    requestArgs (fun _ => "") { name := "r", args := [mkArg "x" "bogus" ""] } = "x " ∧
    eventFieldType (fun _ => "") (mkArg "y" "bogus" "") = "Proxy" := by
  refine ⟨?_, by decide, by decide, by decide, by decide, by decide, by decide, by decide,
    by decide⟩
  intro t
  have hw : wlTypes t = (if t = "int" then some "int32" else if t = "uint" then some "uint32"
      else if t = "string" then some "string" else if t = "fd" then some "uintptr"
      else if t = "fixed" then some "float32" else if t = "array" then some "[]int32"
      else none) := rfl
  rw [hw]
  by_cases h1 : t = "int"
  · simp [h1]
  rw [if_neg h1]
  by_cases h2 : t = "uint"
  · simp [h1, h2]
  rw [if_neg h2]
  by_cases h3 : t = "string"
  · simp [h1, h2, h3]
  rw [if_neg h3]
  by_cases h4 : t = "fd"
  · simp [h1, h2, h3, h4]
  rw [if_neg h4]
  by_cases h5 : t = "fixed"
  · simp [h1, h2, h3, h4, h5]
  rw [if_neg h5]
  by_cases h6 : t = "array"
  · simp [h1, h2, h3, h4, h5, h6]
  rw [if_neg h6]
  simp [h1, h2, h3, h4, h5, h6]

/-! ### Arguments with no statically known interface (claim C6) -/

/-- C6 holds in event-field position and for new-id signature arguments
(both map to `Proxy`), but is violated for an object argument with no
interface in a request signature: that argument falls through to the
primitive-table branch and is silently emitted as `x ` with an empty type
instead of `Proxy`. -/
theorem c6_unknown_interface_object_arg_not_proxy :
    eventFieldType (fun _ => "") (mkArg "x" "object" "") = "Proxy" ∧
    eventFieldType (fun _ => "") (mkArg "x" "new_id" "") = "Proxy" ∧
    requestArgsList (fun _ => "") { name := "r2", args := [mkArg "x" "new_id" ""] } =
      ["iface string", "version uint32", "x Proxy"] ∧
    requestArgsList (fun _ => "") { name := "r", args := [mkArg "x" "object" ""] } = ["x "] := by
  decide

end WlScanner
